import Mathlib

/-!
Verification of the proscore repository's server-side rate limiter and
client-side helpers, embedded shallowly from the TypeScript source.

The rate limiter lives in the scoring route module:
* configuration constants `RATE_LIMIT` and `RATE_LIMIT_WINDOW`;
* an in-memory `rateLimitStore : Map<string, {count, resetTime}>`,
  modelled here as a function `String → Option RateLimitEntry`
  (a JS `Map` holds at most one value per key, so the functional view
  is exact);
* `getRateLimitKey` resolving a client identity from request headers;
* `checkRateLimit` implementing the fixed-window counter, modelled with
  explicit state passing (the TS function mutates the shared map);
* the periodic cleanup task (`setInterval` body), modelled as `sweep`.

The client page module contributes `parseTextToArray` style feedback
post-processing and the localStorage history helpers, also embedded as
pure functions over explicit state.

Timestamps (`Date.now()` values, milliseconds) are modelled as `Int`;
counters as `Nat`.
-/

/-- Per-identity record stored in `rateLimitStore`:
TS `{ count: number; resetTime: number }`. -/
structure RateLimitEntry where
  count : Nat
  resetTime : Int
deriving Repr, DecidableEq

/-- TS `const RATE_LIMIT = 10` (requests per window). -/
def RATE_LIMIT : Nat := 10

/-- TS `const RATE_LIMIT_WINDOW = 1000` (window length in milliseconds). -/
def RATE_LIMIT_WINDOW : Int := 1000

/-- The in-memory store `rateLimitStore`, viewed as a partial map from
identity keys to entries. -/
abbrev Store : Type := String → Option RateLimitEntry

/-- The store at server start: no entries. -/
def emptyStore : Store := fun _ => none

/-- `rateLimitStore.set(k, e)` as a functional update. -/
def storeSet (s : Store) (k : String) (e : RateLimitEntry) : Store :=
  fun k' => if k' = k then some e else s k'

/-- Result of `checkRateLimit`: TS
`{ allowed: boolean; resetTime?: number; remaining?: number }`.
Every return site of the TS function populates all three fields, so the
optional fields are modelled as always present. -/
structure RLResult where
  allowed : Bool
  resetTime : Int
  remaining : Nat
deriving Repr, DecidableEq

/-- `checkRateLimit(key)` from the scoring route, with the ambient
`Date.now()` and the mutable `rateLimitStore` made explicit: returns the
decision together with the updated store.

TS body:
```
const now = Date.now();
const windowEnd = now + RATE_LIMIT_WINDOW;
const current = rateLimitStore.get(key);
if (!current || now > current.resetTime) \x7b
  rateLimitStore.set(key, \x7b count: 1, resetTime: windowEnd \x7d);
  return \x7b allowed: true, resetTime: windowEnd, remaining: RATE_LIMIT - 1 \x7d;
\x7d
if (current.count >= RATE_LIMIT)
  return \x7b allowed: false, resetTime: current.resetTime, remaining: 0 \x7d;
current.count++;
rateLimitStore.set(key, current);
return \x7b allowed: true, resetTime: current.resetTime,
         remaining: RATE_LIMIT - current.count \x7d;
```
-/
def checkRateLimit (key : String) (now : Int) (s : Store) : RLResult × Store :=
  let windowEnd := now + RATE_LIMIT_WINDOW
  match s key with
  | none =>
      (⟨true, windowEnd, RATE_LIMIT - 1⟩, storeSet s key ⟨1, windowEnd⟩)
  | some current =>
      if now > current.resetTime then
        (⟨true, windowEnd, RATE_LIMIT - 1⟩, storeSet s key ⟨1, windowEnd⟩)
      else if current.count ≥ RATE_LIMIT then
        (⟨false, current.resetTime, 0⟩, s)
      else
        (⟨true, current.resetTime, RATE_LIMIT - (current.count + 1)⟩,
         storeSet s key ⟨current.count + 1, current.resetTime⟩)

/-- A sequence of `checkRateLimit` calls for one identity at the given
times, threading the store; returns the list of results in call order. -/
def callSeq (key : String) : List Int → Store → List RLResult × Store
  | [], s => ([], s)
  | t :: ts, s =>
      let p := checkRateLimit key t s
      let q := callSeq key ts p.2
      (p.1 :: q.1, q.2)

/-- A sequence of `checkRateLimit` calls for mixed identities: each call
is a (key, time) pair; each result is tagged with its key. -/
def runSeq : List (String × Int) → Store → List (String × RLResult) × Store
  | [], s => ([], s)
  | (k, t) :: cs, s =>
      let p := checkRateLimit k t s
      let q := runSeq cs p.2
      ((k, p.1) :: q.1, q.2)

/-- The body of the periodic cleanup task (`setInterval`, every 60000 ms):
deletes every entry whose `resetTime` is strictly in the past. -/
def sweep (now : Int) (s : Store) : Store :=
  fun k =>
    match s k with
    | some e => if now > e.resetTime then none else some e
    | none => none

-- Basic store lemmas

theorem storeSet_self (s : Store) (k : String) (e : RateLimitEntry) :
    storeSet s k e k = some e := by
  simp [storeSet]

theorem storeSet_other (s : Store) (k k' : String) (e : RateLimitEntry)
    (h : k' ≠ k) : storeSet s k e k' = s k' := by
  simp [storeSet, h]

-- Branch characterizations of checkRateLimit

/-- Fresh-window branch: no entry, or the stored window already expired. -/
theorem checkRateLimit_fresh (key : String) (now : Int) (s : Store)
    (h : s key = none ∨ ∃ e, s key = some e ∧ e.resetTime < now) :
    checkRateLimit key now s =
      (⟨true, now + RATE_LIMIT_WINDOW, RATE_LIMIT - 1⟩,
       storeSet s key ⟨1, now + RATE_LIMIT_WINDOW⟩) := by
  rcases h with h | ⟨e, he, hlt⟩
  · simp [checkRateLimit, h]
  · simp only [checkRateLimit, he]
    rw [if_pos hlt]

/-- Denied branch: window still open and the count has reached the limit. -/
theorem checkRateLimit_denied (key : String) (now : Int) (s : Store)
    (e : RateLimitEntry) (he : s key = some e) (hnow : now ≤ e.resetTime)
    (hc : RATE_LIMIT ≤ e.count) :
    checkRateLimit key now s = (⟨false, e.resetTime, 0⟩, s) := by
  simp only [checkRateLimit, he]
  rw [if_neg (by omega), if_pos hc]

/-- Increment branch: window still open and the count is below the limit. -/
theorem checkRateLimit_increment (key : String) (now : Int) (s : Store)
    (c : Nat) (r : Int) (he : s key = some ⟨c, r⟩) (hnow : now ≤ r)
    (hc : c < RATE_LIMIT) :
    checkRateLimit key now s =
      (⟨true, r, RATE_LIMIT - (c + 1)⟩, storeSet s key ⟨c + 1, r⟩) := by
  simp only [checkRateLimit, he]
  rw [if_neg (by omega), if_neg (by omega)]

-- Iterated calls within one open window

/-- Running further calls while the entry for `key` holds `⟨c, r⟩`, every
call time is at or before `r`, and the total count stays within the limit:
each call is allowed with `remaining` counting down, and the final count is
`c + ts.length`. -/
theorem callSeq_window (key : String) (r : Int) :
    ∀ (ts : List Int) (c : Nat) (s : Store),
      s key = some ⟨c, r⟩ → c + ts.length ≤ RATE_LIMIT →
      (∀ t ∈ ts, t ≤ r) →
      (callSeq key ts s).1 =
        (List.range ts.length).map
          (fun i => ⟨true, r, RATE_LIMIT - (c + 1 + i)⟩) ∧
      (callSeq key ts s).2 key = some ⟨c + ts.length, r⟩ := by
  intro ts
  induction ts with
  | nil =>
      intro c s hkey _ _
      exact ⟨rfl, by simpa using hkey⟩
  | cons t ts ih =>
      intro c s hkey hlen hts
      have hc : c < RATE_LIMIT := by
        simp only [List.length_cons] at hlen; omega
      have hstep := checkRateLimit_increment key t s c r hkey
        (hts t (by simp)) hc
      have hkey' : storeSet s key ⟨c + 1, r⟩ key = some ⟨c + 1, r⟩ :=
        storeSet_self _ _ _
      have hlen' : (c + 1) + ts.length ≤ RATE_LIMIT := by
        simp only [List.length_cons] at hlen; omega
      have hts' : ∀ u ∈ ts, u ≤ r := fun u hu => hts u (by simp [hu])
      obtain ⟨ihres, ihstore⟩ := ih (c + 1) (storeSet s key ⟨c + 1, r⟩)
        hkey' hlen' hts'
      constructor
      · show (checkRateLimit key t s).1 ::
          (callSeq key ts (checkRateLimit key t s).2).1 = _
        rw [hstep]
        simp only [ihres, List.length_cons, List.range_succ_eq_map,
          List.map_cons, List.map_map]
        refine List.cons_eq_cons.mpr ⟨by simp, ?_⟩
        apply List.map_congr_left
        intro i _
        simp only [Function.comp_apply, RLResult.mk.injEq,
          true_and, and_true]
        congr 1
        omega
      · show (callSeq key ts (checkRateLimit key t s).2).2 key = _
        rw [hstep]
        simpa [Nat.add_assoc, Nat.add_comm 1 ts.length] using ihstore

-- Claim C1

/-- Claim C1: for every identity and every sequence of exactly
`RATE_LIMIT` (= 10) calls to `checkRateLimit` with that identity, all
occurring within one window (each later call time at or before the stored
`resetTime` created by the first call), every call returns
`allowed = true` and the returned `remaining` values are strictly
decreasing from 9 down to 0; every returned `resetTime` is the window end
set by the first call. -/
theorem claim_C1 (key : String) (t0 : Int) (ts : List Int) (s : Store)
    (hkey : s key = none) (hlen : ts.length = RATE_LIMIT - 1)
    (hts : ∀ t ∈ ts, t ≤ t0 + RATE_LIMIT_WINDOW) :
    ((callSeq key (t0 :: ts) s).1).map
        (fun res => (res.allowed, res.remaining)) =
      [(true, 9), (true, 8), (true, 7), (true, 6), (true, 5),
       (true, 4), (true, 3), (true, 2), (true, 1), (true, 0)] ∧
    ∀ res ∈ (callSeq key (t0 :: ts) s).1,
      res.resetTime = t0 + RATE_LIMIT_WINDOW := by
  have hfresh := checkRateLimit_fresh key t0 s (Or.inl hkey)
  have hw := callSeq_window key (t0 + RATE_LIMIT_WINDOW) ts 1
    (storeSet s key ⟨1, t0 + RATE_LIMIT_WINDOW⟩) (storeSet_self _ _ _)
    (by rw [hlen]; decide) hts
  have hres : (callSeq key (t0 :: ts) s).1 =
      ⟨true, t0 + RATE_LIMIT_WINDOW, RATE_LIMIT - 1⟩ ::
        (List.range ts.length).map
          (fun i => ⟨true, t0 + RATE_LIMIT_WINDOW,
            RATE_LIMIT - (1 + 1 + i)⟩) := by
    show (checkRateLimit key t0 s).1 ::
      (callSeq key ts (checkRateLimit key t0 s).2).1 = _
    rw [hfresh]
    exact List.cons_eq_cons.mpr ⟨rfl, hw.1⟩
  constructor
  · rw [hres, hlen]
    simp only [List.map_cons, List.map_map]
    have hmap : List.map
        ((fun res => (res.allowed, res.remaining)) ∘ fun i =>
          (⟨true, t0 + RATE_LIMIT_WINDOW,
            RATE_LIMIT - (1 + 1 + i)⟩ : RLResult))
        (List.range (RATE_LIMIT - 1)) =
        List.map (fun i => (true, RATE_LIMIT - (1 + 1 + i)))
          (List.range (RATE_LIMIT - 1)) :=
      List.map_congr_left (fun i _ => rfl)
    rw [hmap]
    decide
  · rw [hres]
    intro res hmem
    simp only [List.mem_cons, List.mem_map, List.mem_range] at hmem
    rcases hmem with rfl | ⟨i, -, rfl⟩ <;> rfl

/-- Concrete instance of C1: ten calls from identity "1.2.3.4", all at
time 0, starting from the empty store. -/
theorem claim_C1_witness :
    ((callSeq "1.2.3.4" (0 :: List.replicate 9 0) emptyStore).1).map
        (fun res => (res.allowed, res.remaining)) =
      [(true, 9), (true, 8), (true, 7), (true, 6), (true, 5),
       (true, 4), (true, 3), (true, 2), (true, 1), (true, 0)] ∧
    ∀ res ∈ (callSeq "1.2.3.4" (0 :: List.replicate 9 0) emptyStore).1,
      res.resetTime = 0 + RATE_LIMIT_WINDOW :=
  claim_C1 "1.2.3.4" 0 (List.replicate 9 0) emptyStore rfl (by decide)
    (by decide)

-- Claim C2

/-- Claim C2: for every identity whose stored entry has
`count ≥ RATE_LIMIT` and whose `resetTime` has not yet passed,
`checkRateLimit` returns `allowed = false`, `remaining = 0`, and
`resetTime` equal to the stored entry's `resetTime`, and it leaves the
entry map completely unchanged. -/
theorem claim_C2 (key : String) (now : Int) (s : Store)
    (e : RateLimitEntry) (hkey : s key = some e)
    (hc : RATE_LIMIT ≤ e.count) (hnow : now ≤ e.resetTime) :
    (checkRateLimit key now s).1 = ⟨false, e.resetTime, 0⟩ ∧
    (checkRateLimit key now s).2 = s := by
  rw [checkRateLimit_denied key now s e hkey hnow hc]
  exact ⟨rfl, rfl⟩

/-- Concrete instance of C2: an entry at the limit with an open window
is denied without mutation. -/
theorem claim_C2_witness :
    (checkRateLimit "1.2.3.4" 100
        (storeSet emptyStore "1.2.3.4" ⟨10, 500⟩)).1 = ⟨false, 500, 0⟩ ∧
    (checkRateLimit "1.2.3.4" 100
        (storeSet emptyStore "1.2.3.4" ⟨10, 500⟩)).2 =
      storeSet emptyStore "1.2.3.4" ⟨10, 500⟩ :=
  claim_C2 "1.2.3.4" 100 _ ⟨10, 500⟩ (storeSet_self _ _ _) (by decide)
    (by decide)

-- Claim C3

/-- Claim C3: if no entry exists for the identity, or the stored entry's
`resetTime` is strictly in the past, `checkRateLimit` stores a fresh
entry `⟨1, now + RATE_LIMIT_WINDOW⟩` and returns `allowed = true` with
`remaining = RATE_LIMIT - 1`, independent of the prior window's count. -/
theorem claim_C3 (key : String) (now : Int) (s : Store)
    (h : s key = none ∨ ∃ e, s key = some e ∧ e.resetTime < now) :
    (checkRateLimit key now s).1 =
      ⟨true, now + RATE_LIMIT_WINDOW, RATE_LIMIT - 1⟩ ∧
    (checkRateLimit key now s).2 =
      storeSet s key ⟨1, now + RATE_LIMIT_WINDOW⟩ := by
  rw [checkRateLimit_fresh key now s h]
  exact ⟨rfl, rfl⟩

/-- Concrete instance of C3: an expired entry with prior count 7 is
reset to count 1 and the call is allowed with remaining 9. -/
theorem claim_C3_witness :
    (checkRateLimit "k" 100 (storeSet emptyStore "k" ⟨7, 50⟩)).1 =
      ⟨true, 100 + RATE_LIMIT_WINDOW, RATE_LIMIT - 1⟩ ∧
    (checkRateLimit "k" 100 (storeSet emptyStore "k" ⟨7, 50⟩)).2 =
      storeSet (storeSet emptyStore "k" ⟨7, 50⟩) "k"
        ⟨1, 100 + RATE_LIMIT_WINDOW⟩ :=
  claim_C3 "k" 100 _ (Or.inr ⟨⟨7, 50⟩, storeSet_self _ _ _, by decide⟩)

-- Frame and read-locality of checkRateLimit (for noninterference)

/-- A call for `key` never modifies another identity's entry. -/
theorem checkRateLimit_frame (key k' : String) (now : Int) (s : Store)
    (hne : k' ≠ key) : (checkRateLimit key now s).2 k' = s k' := by
  unfold checkRateLimit
  cases h : s key with
  | none => simp [storeSet, hne]
  | some e =>
      by_cases h1 : now > e.resetTime
      · simp [h1, storeSet, hne]
      · by_cases h2 : e.count ≥ RATE_LIMIT
        · simp [h1, h2]
        · simp [h1, h2, storeSet, hne]

/-- A call for `key` reads only the entry for `key`: two stores that
agree at `key` produce the same result and the same entry for `key`. -/
theorem checkRateLimit_congr (key : String) (now : Int) (s1 s2 : Store)
    (h : s1 key = s2 key) :
    (checkRateLimit key now s1).1 = (checkRateLimit key now s2).1 ∧
    (checkRateLimit key now s1).2 key = (checkRateLimit key now s2).2 key := by
  unfold checkRateLimit
  rw [h]
  cases s2 key with
  | none => simp [storeSet]
  | some e =>
      by_cases h1 : now > e.resetTime
      · simp [h1, storeSet]
      · by_cases h2 : e.count ≥ RATE_LIMIT
        · simpa [h1, h2] using h
        · simp [h1, h2, storeSet]

/-- Unfolding equation for `runSeq` on a cons cell. -/
theorem runSeq_cons (k : String) (t : Int) (cs : List (String × Int))
    (s : Store) :
    runSeq ((k, t) :: cs) s =
      ((k, (checkRateLimit k t s).1) ::
         (runSeq cs (checkRateLimit k t s).2).1,
       (runSeq cs (checkRateLimit k t s).2).2) := rfl

/-- Projection of a mixed-identity run onto one identity `K`: the
results tagged `K` in the interleaved run coincide with the results of
running only the `K`-calls, starting from any store that agrees at `K`;
the final stores also agree at `K`. -/
theorem runSeq_project (K : String) :
    ∀ (calls : List (String × Int)) (s1 s2 : Store), s1 K = s2 K →
      (runSeq calls s1).1.filter (fun p => p.1 == K) =
        (runSeq (calls.filter (fun p => p.1 == K)) s2).1 ∧
      (runSeq calls s1).2 K =
        (runSeq (calls.filter (fun p => p.1 == K)) s2).2 K := by
  intro calls
  induction calls with
  | nil => intro s1 s2 h; exact ⟨rfl, h⟩
  | cons c cs ih =>
      intro s1 s2 h
      obtain ⟨k, t⟩ := c
      by_cases hk : k = K
      · subst hk
        have hcong := checkRateLimit_congr k t s1 s2 h
        obtain ⟨ihres, ihstore⟩ :=
          ih (checkRateLimit k t s1).2 (checkRateLimit k t s2).2 hcong.2
        have hfil : ((k, t) :: cs).filter (fun p => p.1 == k) =
            (k, t) :: cs.filter (fun p => p.1 == k) := by
          simp [List.filter_cons]
        rw [runSeq_cons, hfil, runSeq_cons]
        constructor
        · simp only [List.filter_cons, beq_self_eq_true, ite_true,
            hcong.1, ihres]
        · exact ihstore
      · have hframe : (checkRateLimit k t s1).2 K = s2 K := by
          rw [checkRateLimit_frame k K t s1 (fun hc => hk hc.symm)]
          exact h
        obtain ⟨ihres, ihstore⟩ := ih (checkRateLimit k t s1).2 s2 hframe
        have hfil : ((k, t) :: cs).filter (fun p => p.1 == K) =
            cs.filter (fun p => p.1 == K) := by
          simp [List.filter_cons, hk]
        rw [runSeq_cons, hfil]
        constructor
        · rw [List.filter_cons]
          simp only [show ((k, t).1 == K) = false by simpa using hk]
          exact ihres
        · exact ihstore

-- Claim C4

/-- Claim C4: rate-limit state for distinct identities is independent.
A call for identity A never modifies B's entry, and for any interleaved
call sequence over identities A and B, the results observed by each
identity are exactly those of running that identity's calls alone from
the same initial store. -/
theorem claim_C4 (A B : String) (hAB : A ≠ B)
    (calls : List (String × Int))
    (_hkeys : ∀ c ∈ calls, c.1 = A ∨ c.1 = B) (s : Store) :
    ((runSeq calls s).1.filter (fun p => p.1 == A) =
       (runSeq (calls.filter (fun p => p.1 == A)) s).1) ∧
    ((runSeq calls s).1.filter (fun p => p.1 == B) =
       (runSeq (calls.filter (fun p => p.1 == B)) s).1) ∧
    ∀ now, (checkRateLimit A now s).2 B = s B :=
  ⟨(runSeq_project A calls s s rfl).1,
   (runSeq_project B calls s s rfl).1,
   fun now => checkRateLimit_frame A B now s (Ne.symm hAB)⟩

/-- Concrete instance of C4: identities "a" and "b" interleaved. -/
theorem claim_C4_witness :
    ((runSeq [("a", 0), ("b", 0), ("a", 1)] emptyStore).1.filter
        (fun p => p.1 == "a") =
      (runSeq ([("a", 0), ("b", 0), ("a", 1)].filter
        (fun p => p.1 == "a")) emptyStore).1) ∧
    ((runSeq [("a", 0), ("b", 0), ("a", 1)] emptyStore).1.filter
        (fun p => p.1 == "b") =
      (runSeq ([("a", 0), ("b", 0), ("a", 1)].filter
        (fun p => p.1 == "b")) emptyStore).1) ∧
    ∀ now, (checkRateLimit "a" now emptyStore).2 "b" = emptyStore "b" :=
  claim_C4 "a" "b" (by decide) [("a", 0), ("b", 0), ("a", 1)]
    (by decide) emptyStore

-- Store invariant (for C7)

/-- Every stored entry has a count between 1 and the limit. -/
def StoreInv (s : Store) : Prop :=
  ∀ k e, s k = some e → 1 ≤ e.count ∧ e.count ≤ RATE_LIMIT

theorem emptyStore_inv : StoreInv emptyStore := by
  intro k e h
  simp [emptyStore] at h

/-- The invariant holds for the store produced by an update with a
fresh count-1 entry. -/
theorem storeSet_inv_one (s : Store) (key : String) (w : Int)
    (h : StoreInv s) : StoreInv (storeSet s key ⟨1, w⟩) := by
  intro k e hk
  by_cases hkk : k = key
  · subst hkk
    rw [storeSet_self] at hk
    cases hk
    exact ⟨le_refl _, by show (1 : Nat) ≤ RATE_LIMIT; decide⟩
  · rw [storeSet_other _ _ _ _ hkk] at hk
    exact h k e hk

/-- One call preserves the store invariant. -/
theorem checkRateLimit_inv (key : String) (now : Int) (s : Store)
    (h : StoreInv s) : StoreInv (checkRateLimit key now s).2 := by
  cases hkey : s key with
  | none =>
      rw [checkRateLimit_fresh key now s (Or.inl hkey)]
      exact storeSet_inv_one s key _ h
  | some cur =>
      obtain ⟨c, r⟩ := cur
      by_cases h1 : r < now
      · rw [checkRateLimit_fresh key now s (Or.inr ⟨⟨c, r⟩, hkey, h1⟩)]
        exact storeSet_inv_one s key _ h
      · by_cases h2 : RATE_LIMIT ≤ c
        · rw [checkRateLimit_denied key now s ⟨c, r⟩ hkey
            (by show now ≤ r; omega) h2]
          exact h
        · rw [checkRateLimit_increment key now s c r hkey (by omega)
            (by omega)]
          show StoreInv (storeSet s key ⟨c + 1, r⟩)
          intro k e hk
          by_cases hkk : k = key
          · subst hkk
            rw [storeSet_self] at hk
            cases hk
            exact ⟨by show 1 ≤ c + 1; omega,
              by show c + 1 ≤ RATE_LIMIT; omega⟩
          · rw [storeSet_other _ _ _ _ hkk] at hk
            exact h k e hk

/-- Any run of calls preserves the store invariant. -/
theorem runSeq_inv :
    ∀ (calls : List (String × Int)) (s : Store),
      StoreInv s → StoreInv (runSeq calls s).2 := by
  intro calls
  induction calls with
  | nil => intro s h; exact h
  | cons c cs ih =>
      intro s h
      obtain ⟨k, t⟩ := c
      rw [runSeq_cons]
      exact ih _ (checkRateLimit_inv k t s h)

/-- Every allowed call leaves an entry for the key whose count accounts
exactly for the returned `remaining`. -/
theorem checkRateLimit_remaining (key : String) (now : Int) (s : Store)
    (hallowed : (checkRateLimit key now s).1.allowed = true) :
    ∃ e, (checkRateLimit key now s).2 key = some e ∧
      (checkRateLimit key now s).1.remaining = RATE_LIMIT - e.count ∧
      (checkRateLimit key now s).1.remaining ≤ RATE_LIMIT - 1 := by
  cases hkey : s key with
  | none =>
      rw [checkRateLimit_fresh key now s (Or.inl hkey)]
      exact ⟨⟨1, now + RATE_LIMIT_WINDOW⟩, storeSet_self _ _ _, rfl,
        le_refl _⟩
  | some cur =>
      obtain ⟨c, r⟩ := cur
      by_cases h1 : r < now
      · rw [checkRateLimit_fresh key now s (Or.inr ⟨⟨c, r⟩, hkey, h1⟩)]
        exact ⟨⟨1, now + RATE_LIMIT_WINDOW⟩, storeSet_self _ _ _, rfl,
          le_refl _⟩
      · by_cases h2 : RATE_LIMIT ≤ c
        · rw [checkRateLimit_denied key now s ⟨c, r⟩ hkey
            (by show now ≤ r; omega) h2] at hallowed
          simp at hallowed
        · rw [checkRateLimit_increment key now s c r hkey (by omega)
            (by omega)]
          refine ⟨⟨c + 1, r⟩, storeSet_self _ _ _, rfl, ?_⟩
          show RATE_LIMIT - (c + 1) ≤ RATE_LIMIT - 1
          omega

-- Claim C6

/-- Claim C6: after one execution of the sweep at time `now`, an
identity's entry is present iff it was present before and its stored
`resetTime` has not already passed; a subsequent `checkRateLimit` for a
swept identity behaves exactly as for a never-seen identity (same result
and same stored entry as a call on the empty store). -/
theorem claim_C6 (now : Int) (s : Store) (k : String) :
    (∀ e, sweep now s k = some e ↔
      (s k = some e ∧ now ≤ e.resetTime)) ∧
    (∀ e, s k = some e → e.resetTime < now →
      sweep now s k = none ∧
      ∀ t, (checkRateLimit k t (sweep now s)).1 =
             (checkRateLimit k t emptyStore).1 ∧
           (checkRateLimit k t (sweep now s)).2 k =
             (checkRateLimit k t emptyStore).2 k) := by
  have hsw : ∀ e', s k = some e' →
      sweep now s k = if now > e'.resetTime then none else some e' := by
    intro e' he'
    show (match s k with
      | some e => if now > e.resetTime then none else some e
      | none => none) = _
    rw [he']
  have hswn : s k = none → sweep now s k = none := by
    intro he'
    show (match s k with
      | some e => if now > e.resetTime then none else some e
      | none => none) = none
    rw [he']
  constructor
  · intro e
    constructor
    · intro h
      cases hk : s k with
      | none => rw [hswn hk] at h; cases h
      | some e' =>
          rw [hsw e' hk] at h
          by_cases h1 : now > e'.resetTime
          · rw [if_pos h1] at h; cases h
          · rw [if_neg h1] at h
            injection h with h2
            subst h2
            exact ⟨rfl, by omega⟩
    · rintro ⟨hk, hle⟩
      rw [hsw e hk, if_neg (by omega)]
  · intro e hk hlt
    have hnone : sweep now s k = none := by
      rw [hsw e hk, if_pos (by omega)]
    refine ⟨hnone, fun t => ?_⟩
    exact checkRateLimit_congr k t (sweep now s) emptyStore
      (by rw [hnone]; rfl)

/-- Concrete instance of C6: an entry expired at 10 is swept at 50, and
the next call at 60 behaves as for a fresh identity. -/
theorem claim_C6_witness :
    sweep 50 (storeSet emptyStore "k" ⟨3, 10⟩) "k" = none ∧
    (checkRateLimit "k" 60 (sweep 50 (storeSet emptyStore "k" ⟨3, 10⟩))).1 =
      (checkRateLimit "k" 60 emptyStore).1 :=
  have h := (claim_C6 50 (storeSet emptyStore "k" ⟨3, 10⟩) "k").2
    ⟨3, 10⟩ (storeSet_self _ _ _) (by decide)
  ⟨h.1, (h.2 60).1⟩

-- Claim C7

/-- Claim C7: in every state reachable from the empty map by any
sequence of `checkRateLimit` calls at non-decreasing times, every stored
entry satisfies `1 ≤ count ≤ RATE_LIMIT`; and every allowed result
satisfies `remaining = RATE_LIMIT - count` of the entry just stored, so
`remaining` lies in `[0, RATE_LIMIT - 1]`. -/
theorem claim_C7 (calls : List (String × Int))
    (_hmono : List.Chain' (fun a b => a.2 ≤ b.2) calls) :
    StoreInv (runSeq calls emptyStore).2 ∧
    (∀ (s : Store), StoreInv s → ∀ (k : String) (t : Int),
      (checkRateLimit k t s).1.allowed = true →
      ∃ e, (checkRateLimit k t s).2 k = some e ∧
        (checkRateLimit k t s).1.remaining = RATE_LIMIT - e.count ∧
        (checkRateLimit k t s).1.remaining ≤ RATE_LIMIT - 1) :=
  ⟨runSeq_inv calls emptyStore emptyStore_inv,
   fun s _ k t h => checkRateLimit_remaining k t s h⟩

/-- Concrete instance of C7: two calls for "a" at times 0 and 5. -/
theorem claim_C7_witness :
    StoreInv (runSeq [("a", 0), ("a", 5)] emptyStore).2 ∧
    ∃ e, (checkRateLimit "a" 0 emptyStore).2 "a" = some e ∧
      (checkRateLimit "a" 0 emptyStore).1.remaining =
        RATE_LIMIT - e.count ∧
      (checkRateLimit "a" 0 emptyStore).1.remaining ≤ RATE_LIMIT - 1 :=
  have h := claim_C7 [("a", 0), ("a", 5)]
    (by simp [List.chain'_cons])
  ⟨h.1, h.2 emptyStore emptyStore_inv "a" 0 (by decide)⟩

-- Client identity resolution (getRateLimitKey)

/-- The four headers read by `getRateLimitKey`; `request.headers.get`
returns `string | null`, modelled as `Option String` (`none` = absent). -/
structure Headers where
  cfConnectingIp : Option String
  xForwardedFor : Option String
  xRealIp : Option String
  xClientIp : Option String
deriving Repr, DecidableEq

/-- JS truthiness of a `string | null` value: `null` and the empty
string are falsy, every other string is truthy. -/
def truthy : Option String → Bool
  | none => false
  | some s => !(s == "")

/-- JS `String.prototype.split` with a one-character separator, over the
character list (both call sites use single-character separators). On the
empty string it yields `[""]`, as in JS. -/
def jsSplitAux (sep : Char) : List Char → List (List Char)
  | [] => [[]]
  | c :: rest =>
      let r := jsSplitAux sep rest
      if c = sep then [] :: r
      else (c :: r.headD []) :: r.tail

/-- JS `s.split(sep)` for a one-character separator. -/
def jsSplitChar (sep : Char) (s : String) : List String :=
  (jsSplitAux sep s.data).map String.mk

/-- JS `s.trim()`: strip leading and trailing whitespace. Whitespace is
modelled by `Char.isWhitespace` (space, tab, CR, LF), which covers every
character appearing in the concrete inputs considered here. -/
def jsTrim (s : String) : String :=
  ⟨(((s.data.dropWhile Char.isWhitespace).reverse).dropWhile
      Char.isWhitespace).reverse⟩

/-- `getRateLimitKey(request)` from the scoring route.

TS body:
```
const forwarded = request.headers.get("x-forwarded-for");
const realIp = request.headers.get("x-real-ip");
const cfConnectingIp = request.headers.get("cf-connecting-ip");
const xClientIp = request.headers.get("x-client-ip");
if (cfConnectingIp) return cfConnectingIp;
if (forwarded) return forwarded.split(",")[0].trim();
if (realIp) return realIp;
if (xClientIp) return xClientIp;
return "unknown-client";
```
(`split` always returns a non-empty array, so `[0]` is total; the
`headD ""` default is never reached.) -/
def getRateLimitKey (h : Headers) : String :=
  if truthy h.cfConnectingIp then h.cfConnectingIp.getD ""
  else if truthy h.xForwardedFor then
    jsTrim ((jsSplitChar ',' (h.xForwardedFor.getD "")).headD "")
  else if truthy h.xRealIp then h.xRealIp.getD ""
  else if truthy h.xClientIp then h.xClientIp.getD ""
  else "unknown-client"

/-- A truthy optional string holds a non-empty value. -/
theorem truthy_getD (o : Option String) (h : truthy o = true) :
    o.getD "" ≠ "" := by
  cases o with
  | none => simp [truthy] at h
  | some s =>
      simp only [truthy, Bool.not_eq_eq_eq_not, Bool.not_true,
        beq_eq_false_iff_ne] at h
      simpa using h

-- Claim C5

/-- Claim C5 counterexample: with `x-forwarded-for = " ,2.2.2.2"` (a
non-empty, hence truthy, header whose first comma-separated entry trims
to the empty string) and `x-real-ip = "9.9.9.9"`, `getRateLimitKey`
returns the empty string even though a later header in the priority
order holds a non-empty value — contradicting the claim that the
returned identity is never empty in that situation. -/
theorem claim_C5_counterexample :
    getRateLimitKey ⟨none, some " ,2.2.2.2", some "9.9.9.9", none⟩ = "" ∧
    Headers.xRealIp ⟨none, some " ,2.2.2.2", some "9.9.9.9", none⟩ =
      some "9.9.9.9" ∧
    ("9.9.9.9" : String) ≠ "" := by
  refine ⟨by decide, rfl, by decide⟩

/-- Claim C5 (amended): `getRateLimitKey` evaluates the headers in
strict priority order cf-connecting-ip, x-forwarded-for, x-real-ip,
x-client-ip, skipping absent and empty values; for x-forwarded-for it
returns the first comma-separated entry trimmed, which may be the empty
string; for the other three headers the returned value is the header's
non-empty value; when all four are absent or empty it returns the
sentinel "unknown-client". -/
theorem claim_C5_amended (h : Headers) :
    (truthy h.cfConnectingIp = true →
      getRateLimitKey h = h.cfConnectingIp.getD "" ∧
      getRateLimitKey h ≠ "") ∧
    (truthy h.cfConnectingIp = false → truthy h.xForwardedFor = true →
      getRateLimitKey h =
        jsTrim ((jsSplitChar ',' (h.xForwardedFor.getD "")).headD "")) ∧
    (truthy h.cfConnectingIp = false → truthy h.xForwardedFor = false →
      truthy h.xRealIp = true →
      getRateLimitKey h = h.xRealIp.getD "" ∧
      getRateLimitKey h ≠ "") ∧
    (truthy h.cfConnectingIp = false → truthy h.xForwardedFor = false →
      truthy h.xRealIp = false → truthy h.xClientIp = true →
      getRateLimitKey h = h.xClientIp.getD "" ∧
      getRateLimitKey h ≠ "") ∧
    (truthy h.cfConnectingIp = false → truthy h.xForwardedFor = false →
      truthy h.xRealIp = false → truthy h.xClientIp = false →
      getRateLimitKey h = "unknown-client") := by
  refine ⟨fun h1 => ?_, fun h1 h2 => ?_, fun h1 h2 h3 => ?_,
    fun h1 h2 h3 h4 => ?_, fun h1 h2 h3 h4 => ?_⟩
  · constructor
    · simp [getRateLimitKey, h1]
    · simp only [getRateLimitKey, h1, if_true]
      exact truthy_getD _ h1
  · simp [getRateLimitKey, h1, h2]
  · constructor
    · simp [getRateLimitKey, h1, h2, h3]
    · simp only [getRateLimitKey, h1, h2, h3, if_false, if_true]
      exact truthy_getD _ h3
  · constructor
    · simp [getRateLimitKey, h1, h2, h3, h4]
    · simp only [getRateLimitKey, h1, h2, h3, h4, if_false, if_true]
      exact truthy_getD _ h4
  · simp [getRateLimitKey, h1, h2, h3, h4]

/-- Concrete instances of the amended C5: the priority order and the
forwarded-for first-entry-trimmed rule on the spec's example headers. -/
theorem claim_C5_witness :
    getRateLimitKey ⟨some "9.9.9.9", some "1.1.1.1,2.2.2.2", none, none⟩ =
      "9.9.9.9" ∧
    getRateLimitKey ⟨none, some "1.1.1.1, 2.2.2.2", none, none⟩ =
      "1.1.1.1" ∧
    getRateLimitKey ⟨none, none, none, none⟩ = "unknown-client" := by
  refine ⟨?_, ?_, ?_⟩
  · have h := ((claim_C5_amended
      ⟨some "9.9.9.9", some "1.1.1.1,2.2.2.2", none, none⟩).1
      (by decide)).1
    rw [h]
    rfl
  · have h := (claim_C5_amended
      ⟨none, some "1.1.1.1, 2.2.2.2", none, none⟩).2.1
      (by decide) (by decide)
    rw [h]
    decide
  · exact (claim_C5_amended ⟨none, none, none, none⟩).2.2.2.2
      (by decide) (by decide) (by decide) (by decide)

-- Feedback list parsing (parseTextToArray and fallbacks)

/-- Tail of the JS regex `^\d+\.?\s` after the leading digit: consume
further digits, then optionally one dot, then require one whitespace
character. Regex backtracking cannot produce a match the maximal-munch
reading misses (shorter digit runs leave a digit where `\.?\s` must
match), so this function is equivalent to the regex test. -/
def numberingAfterDigits : List Char → Bool
  | [] => false
  | c :: rest =>
      if c.isDigit then numberingAfterDigits rest
      else if c = '.' then
        match rest with
        | [] => false
        | d :: _ => d.isWhitespace
      else c.isWhitespace

/-- JS `line.match(/^\d+\.?\s/) !== null`. -/
def numberingMatch (s : String) : Bool :=
  match s.data with
  | [] => false
  | c :: rest => c.isDigit && numberingAfterDigits rest

/-- `parseTextToArray` from the scoring route:
```
text.split('\n').map(line => line.trim())
    .filter(line => line.length > 0 && !line.match(/^\d+\.?\s/))
    .slice(0, 3)
```
-/
def parseTextToArray (text : String) : List String :=
  (((jsSplitChar '\n' text).map jsTrim).filter
    (fun line => decide (0 < line.length) && !(numberingMatch line))).take 3

/-- `feedback.strengths` with the empty-list fallback applied. -/
def feedbackStrengths (raw : String) : List String :=
  let l := parseTextToArray raw
  if l.length = 0 then ["Project shows potential in multiple areas"] else l

/-- `feedback.improvements` with the empty-list fallback applied. -/
def feedbackImprovements (raw : String) : List String :=
  let l := parseTextToArray raw
  if l.length = 0 then ["Consider refining areas with lower scores"] else l

/-- `feedback.recommendations` with the empty-list fallback applied. -/
def feedbackRecommendations (raw : String) : List String :=
  let l := parseTextToArray raw
  if l.length = 0 then ["Focus on strengthening core value proposition"]
  else l

theorem parseTextToArray_length_le (text : String) :
    (parseTextToArray text).length ≤ 3 := by
  unfold parseTextToArray
  exact List.length_take_le 3 _

/-- Behaviour of the empty-list fallback on a parsed feedback list. -/
theorem fallback_spec (raw fb : String) :
    ((if (parseTextToArray raw).length = 0 then [fb]
       else parseTextToArray raw) : List String).length ≤ 3 ∧
    (if (parseTextToArray raw).length = 0 then [fb]
      else parseTextToArray raw) ≠ [] ∧
    (parseTextToArray raw = [] →
      (if (parseTextToArray raw).length = 0 then [fb]
        else parseTextToArray raw) = [fb]) := by
  by_cases h : (parseTextToArray raw).length = 0
  · refine ⟨?_, ?_, fun _ => if_pos h⟩
    · rw [if_pos h]
      simp
    · rw [if_pos h]
      simp
  · refine ⟨?_, ?_, ?_⟩
    · rw [if_neg h]
      exact parseTextToArray_length_le raw
    · rw [if_neg h]
      intro hnil
      rw [hnil] at h
      exact h rfl
    · intro hnil
      rw [hnil] at h
      exact absurd rfl h

-- Claim C8

/-- Claim C8: each feedback list (strengths, improvements,
recommendations) has at most 3 entries; each is non-empty; and when the
parsed upstream text yields an empty list, the corresponding list is
exactly the one-element canned fallback. -/
theorem claim_C8 (sRaw iRaw rRaw : String) :
    (feedbackStrengths sRaw).length ≤ 3 ∧
    feedbackStrengths sRaw ≠ [] ∧
    (feedbackImprovements iRaw).length ≤ 3 ∧
    feedbackImprovements iRaw ≠ [] ∧
    (feedbackRecommendations rRaw).length ≤ 3 ∧
    feedbackRecommendations rRaw ≠ [] ∧
    (parseTextToArray sRaw = [] →
      feedbackStrengths sRaw =
        ["Project shows potential in multiple areas"]) ∧
    (parseTextToArray iRaw = [] →
      feedbackImprovements iRaw =
        ["Consider refining areas with lower scores"]) ∧
    (parseTextToArray rRaw = [] →
      feedbackRecommendations rRaw =
        ["Focus on strengthening core value proposition"]) := by
  obtain ⟨h1, h2, h3⟩ :=
    fallback_spec sRaw "Project shows potential in multiple areas"
  obtain ⟨h4, h5, h6⟩ :=
    fallback_spec iRaw "Consider refining areas with lower scores"
  obtain ⟨h7, h8, h9⟩ :=
    fallback_spec rRaw "Focus on strengthening core value proposition"
  exact ⟨h1, h2, h4, h5, h7, h8, h3, h6, h9⟩

/-- Concrete instance of C8: a two-line text keeps its entries; an empty
text and a numbered-only text fall back to the canned strings. -/
theorem claim_C8_witness :
    (feedbackStrengths "Solid idea\nClear writeup").length ≤ 3 ∧
    feedbackStrengths "Solid idea\nClear writeup" ≠ [] ∧
    feedbackImprovements "" =
      ["Consider refining areas with lower scores"] ∧
    feedbackRecommendations "1. numbered" =
      ["Focus on strengthening core value proposition"] :=
  have h := claim_C8 "Solid idea\nClear writeup" "" "1. numbered"
  ⟨h.1, h.2.1, h.2.2.2.2.2.2.2.1 (by decide),
   h.2.2.2.2.2.2.2.2 (by decide)⟩

-- localStorage history helpers (client page)

/-- The `updated` history list computed by `saveToLocalStorage`:
`[analysis, ...existing.slice(0, 9)]`, i.e. the new analysis followed by
at most the first 9 entries of the previously stored list. (The
surrounding JSON stringify/parse and the storage write are external
browser calls, out of scope of the list computation.) -/
def saveToLocalStorage {α : Type} (analysis : α) (existing : List α) :
    List α :=
  analysis :: existing.take 9

-- Claim C9

/-- Claim C9: the stored history list has the new analysis as its head,
its tail is the first at-most-9 elements of the prior list, and its
length never exceeds 10. -/
theorem claim_C9 {α : Type} (a : α) (l : List α) :
    (saveToLocalStorage a l).head? = some a ∧
    (saveToLocalStorage a l).tail = l.take 9 ∧
    (saveToLocalStorage a l).length ≤ 10 := by
  refine ⟨rfl, rfl, ?_⟩
  show (a :: l.take 9).length ≤ 10
  simp only [List.length_cons]
  have := List.length_take_le 9 l
  omega

-- Claim C10

/-- `getFromLocalStorage`: reads the raw string stored under the
history key and parses it as JSON, returning `[]` when parsing throws.
`JSON.parse` is an external library routine, abstracted as the `parse`
argument (`Except Unit` models throwing). `localStorage.getItem`
returns `string | null`, and `stored || "[]"` substitutes `"[]"` for
both `null` and the empty string. -/
def getFromLocalStorage {α : Type}
    (parse : String → Except Unit (List α)) (stored : Option String) :
    List α :=
  let raw := match stored with
    | none => "[]"
    | some v => if v == "" then "[]" else v
  match parse raw with
  | Except.ok l => l
  | Except.error _ => []

/-- Claim C10: for every stored string whose JSON parse fails,
`getFromLocalStorage` catches the failure and returns the empty list.
(`parse "[]" = ok []` states that the substitute used for a falsy
stored value parses to the empty array, as `JSON.parse` does.) -/
theorem claim_C10 {α : Type} (parse : String → Except Unit (List α))
    (stored : String) (hok : parse "[]" = Except.ok [])
    (hfail : ∃ e, parse stored = Except.error e) :
    getFromLocalStorage parse (some stored) = [] := by
  obtain ⟨e, he⟩ := hfail
  by_cases h : (stored == "") = true
  · show (match parse (if stored == "" then "[]" else stored) with
      | Except.ok l => l
      | Except.error _ => []) = []
    rw [if_pos h, hok]
  · show (match parse (if stored == "" then "[]" else stored) with
      | Except.ok l => l
      | Except.error _ => []) = []
    rw [if_neg h, he]

/-- Concrete instance of C10: a parser rejecting everything but "[]"
applied to a malformed stored string. -/
theorem claim_C10_witness :
    getFromLocalStorage
      (fun s => if s == "[]" then Except.ok ([] : List Nat)
        else Except.error ())
      (some "not json") = [] :=
  claim_C10 _ "not json" (by simp) ⟨(), by simp⟩
